import Mathlib

/-!
Verification of the password generator and strength analyzer of
`go-passwordgen` (`internal/generator/password.go`), as a shallow embedding.

Modelling conventions:
* Go strings of ASCII characters become `List Char`; `len` becomes `List.length`.
* Go `int` fields (`Length`, `Count`) become `Int`.
* `float64` entropy arithmetic is idealized over `ℝ` (`Real.logb 2`).
* The cryptographically secure random source (`crypto/rand` behind
  `secureRandomInt`) is modelled as an oracle `Sampler : ℕ → Except String ℕ`
  giving the outcome of the k-th call: either a failure of the underlying
  entropy source or a raw non-negative value.  `secureRandomInt` reduces the
  raw value modulo `max`, so every possible in-range result of the real
  sampler is covered by some oracle, and theorems quantify over all oracles.
* Go's `(value, error)` returns become `Except String _`; `error` wrapping via
  `fmt.Errorf("failed to generate random number: %w", err)` becomes string
  concatenation.
-/

namespace PassGen

/-- `specialChars` constant (27 symbols; `\x7b\x7d` are the literal braces). -/
def specialChars : List Char := "!@#$%^&*()-_=+[]\x7b\x7d|;:,.<>?/".toList

/-- `numbers` constant. -/
def numbers : List Char := "0123456789".toList

/-- `uppercase` constant. -/
def uppercase : List Char := "ABCDEFGHIJKLMNOPQRSTUVWXYZ".toList

/-- `lowercase` constant. -/
def lowercase : List Char := "abcdefghijklmnopqrstuvwxyz".toList

/-- `PasswordOptions` struct. -/
structure PasswordOptions where
  Length : Int
  UseSpecialChars : Bool
  UseNumbers : Bool
  UseUpper : Bool
  UseLower : Bool
  Count : Int
deriving DecidableEq, Repr

/-- `GeneratedPassword` struct (`Entropy float64` idealized as `ℝ`). -/
structure GeneratedPassword where
  Value : List Char
  Strength : String
  Entropy : ℝ

/-- `validateOptions`: the three checks, in source order (length, count,
charset selection).  `none` models a `nil` error. -/
def validateOptions (opt : PasswordOptions) : Option String :=
  let minLength : Int :=
    (if opt.UseSpecialChars then 1 else 0) + (if opt.UseNumbers then 1 else 0) +
    (if opt.UseUpper then 1 else 0) + (if opt.UseLower then 1 else 0)
  if opt.Length < minLength then
    some "length is too short for the selected character sets"
  else if opt.Count < 1 then
    some "count must be greater than 0"
  else if !opt.UseUpper && !opt.UseLower && !opt.UseNumbers && !opt.UseSpecialChars then
    some "at least one character set must be selected"
  else
    none

/-- Oracle for the secure random source: outcome of the k-th call. -/
abbrev Sampler := Nat → Except String Nat

/-- `secureRandomInt(max)` as the k-th call to the oracle `g`: a failure of the
underlying source is wrapped exactly as `fmt.Errorf` does; a raw value is
reduced into `[0, max)`. -/
def secureRandomInt (g : Sampler) (k : Nat) (max : Nat) : Except String Nat :=
  match g k with
  | .error e => .error ("failed to generate random number: " ++ e)
  | .ok n => .ok (n % max)

/-- `buildCharset`: concatenation of enabled alphabets in source order
(upper, lower, numbers, special). -/
def buildCharset (opt : PasswordOptions) : List Char :=
  (if opt.UseUpper then uppercase else []) ++
  (if opt.UseLower then lowercase else []) ++
  (if opt.UseNumbers then numbers else []) ++
  (if opt.UseSpecialChars then specialChars else [])

/-- The simultaneous swap `runes[i], runes[j] = runes[j], runes[i]`. -/
def listSwap (l : List Char) (i j : Nat) : List Char :=
  (l.set i (l.getD j ' ')).set j (l.getD i ' ')

/-- Body of `shuffle`'s loop.  The Go loop runs `i` from `0` to `N-2`; here
`rem` counts the remaining iterations (`rem = N - 1 - i` throughout), so the
recursion is structural.  Each iteration draws `r ∈ [0, N-i)` and swaps
positions `i` and `r + i`. -/
def shuffleIter (g : Sampler) (N : Nat) (i : Nat) (rem : Nat) (runes : List Char)
    (k : Nat) : Except String (List Char × Nat) :=
  match rem with
  | 0 => .ok (runes, k)
  | r + 1 =>
    match secureRandomInt g k (N - i) with
    | .error e => .error e
    | .ok n => shuffleIter g N (i + 1) r (listSwap runes i (n + i)) (k + 1)

/-- `shuffle`: in-place Fisher-Yates pass over the whole rune slice. -/
def shuffle (g : Sampler) (runes : List Char) (k : Nat) :
    Except String (List Char × Nat) :=
  shuffleIter g runes.length 0 (runes.length - 1) runes k

/-- One conditional guaranteed-class draw: the
`if opt.UseX { n, err := secureRandomInt(len(alpha)); password[position] = alpha[n] }`
pattern, appending to the filled region `acc`. -/
def drawClass (use : Bool) (alpha : List Char) (g : Sampler) (acc : List Char)
    (k : Nat) : Except String (List Char × Nat) :=
  if use then
    match secureRandomInt g k alpha.length with
    | .error e => .error e
    | .ok n => .ok (acc ++ [alpha.getD n ' '], k + 1)
  else
    .ok (acc, k)

/-- The fill loop `for j := position; j < opt.Length; j++`, with `rem`
remaining positions. -/
def fillLoop (g : Sampler) (cs : List Char) (rem : Nat) (acc : List Char)
    (k : Nat) : Except String (List Char × Nat) :=
  match rem with
  | 0 => .ok (acc, k)
  | r + 1 =>
    match secureRandomInt g k cs.length with
    | .error e => .error e
    | .ok n => fillLoop g cs r (acc ++ [cs.getD n ' ']) (k + 1)

/-- The per-password body of `GeneratePassword`: guaranteed draws in source
order (upper, lower, numbers, special), then the fill loop over the combined
charset, then the shuffle. -/
def composeOne (opt : PasswordOptions) (g : Sampler) (k : Nat) :
    Except String (List Char × Nat) :=
  match drawClass opt.UseUpper uppercase g [] k with
  | .error e => .error e
  | .ok (a1, k1) =>
    match drawClass opt.UseLower lowercase g a1 k1 with
    | .error e => .error e
    | .ok (a2, k2) =>
      match drawClass opt.UseNumbers numbers g a2 k2 with
      | .error e => .error e
      | .ok (a3, k3) =>
        match drawClass opt.UseSpecialChars specialChars g a3 k3 with
        | .error e => .error e
        | .ok (a4, k4) =>
          match fillLoop g (buildCharset opt) (opt.Length - (a4.length : Int)).toNat a4 k4 with
          | .error e => .error e
          | .ok (filled, k5) =>
            shuffleIter g filled.length 0 (filled.length - 1) filled k5

/-- First case of the analyzer's switch: `'A' <= r && r <= 'Z'`. -/
def caseUpper (c : Char) : Bool := 'A' ≤ c && c ≤ 'Z'

/-- Second case, reached only when the first did not match. -/
def caseLower (c : Char) : Bool := !caseUpper c && ('a' ≤ c && c ≤ 'z')

/-- Third case, reached only when the first two did not match. -/
def caseDigit (c : Char) : Bool :=
  !caseUpper c && !('a' ≤ c && c ≤ 'z') && ('0' ≤ c && c ≤ '9')

/-- Fourth case: `strings.ContainsRune(specialChars, r)`, reached only when
the range cases did not match. -/
def caseSpecial (c : Char) : Bool :=
  !caseUpper c && !('a' ≤ c && c ≤ 'z') && !('0' ≤ c && c ≤ '9') &&
    specialChars.contains c

/-- `hasUpper` flag after the scan. -/
def hasUpperIn (p : List Char) : Bool := p.any caseUpper

/-- `hasLower` flag after the scan. -/
def hasLowerIn (p : List Char) : Bool := p.any caseLower

/-- `hasNumber` flag after the scan. -/
def hasNumberIn (p : List Char) : Bool := p.any caseDigit

/-- `hasSpecial` flag after the scan. -/
def hasSpecialIn (p : List Char) : Bool := p.any caseSpecial

/-- `charsetSize` accumulated from the observed class flags, in source order. -/
def observedCharsetSize (p : List Char) : Nat :=
  (if hasUpperIn p then uppercase.length else 0) +
  (if hasLowerIn p then lowercase.length else 0) +
  (if hasNumberIn p then numbers.length else 0) +
  (if hasSpecialIn p then specialChars.length else 0)

open Classical in
/-- The strength switch on the computed entropy. -/
noncomputable def strengthOf (e : ℝ) : String :=
  if 80 ≤ e then "Excellent"
  else if 60 ≤ e then "Strong"
  else if 40 ≤ e then "Moderate"
  else "Weak"

/-- `PasswordEntropy`: empty check, observed-class scan, charset-size check,
then `entropy = len * log2(charsetSize)` and the strength switch. -/
noncomputable def PasswordEntropy (p : List Char) : Except String (ℝ × String) :=
  if p.length = 0 then .error "password is empty"
  else if observedCharsetSize p = 0 then
    .error "password contains no recognized character types"
  else
    .ok ((p.length : ℝ) * Real.logb 2 (observedCharsetSize p : ℝ),
      strengthOf ((p.length : ℝ) * Real.logb 2 (observedCharsetSize p : ℝ)))

/-- The batch loop of `GeneratePassword`: `n` passwords remaining, oracle
counter `k`; each iteration composes a password, analyzes it, and records the
`GeneratedPassword`. -/
noncomputable def genLoop (opt : PasswordOptions) (g : Sampler) (n : Nat)
    (k : Nat) : Except String (List GeneratedPassword × Nat) :=
  match n with
  | 0 => .ok ([], k)
  | m + 1 =>
    match composeOne opt g k with
    | .error e => .error e
    | .ok (pwd, k1) =>
      match PasswordEntropy pwd with
      | .error e => .error e
      | .ok (ent, str) =>
        match genLoop opt g m k1 with
        | .error e => .error e
        | .ok (rest, k2) => .ok (⟨pwd, str, ent⟩ :: rest, k2)

/-- `GeneratePassword`: validate, then produce `opt.Count` passwords. -/
noncomputable def GeneratePassword (opt : PasswordOptions) (g : Sampler) :
    Except String (List GeneratedPassword) :=
  match validateOptions opt with
  | some e => .error e
  | none =>
    match genLoop opt g opt.Count.toNat 0 with
    | .error e => .error e
    | .ok (pws, _) => .ok pws

/-- Number of enabled class flags (= the `minLength` / final `position` of the
source). -/
def enabledCount (opt : PasswordOptions) : Nat :=
  (if opt.UseSpecialChars then 1 else 0) + (if opt.UseNumbers then 1 else 0) +
  (if opt.UseUpper then 1 else 0) + (if opt.UseLower then 1 else 0)

/-- Number of fill-loop iterations. -/
def fillCount (opt : PasswordOptions) : Nat :=
  (opt.Length - (enabledCount opt : Int)).toNat

/-- Length of a composed password. -/
def passLen (opt : PasswordOptions) : Nat := enabledCount opt + fillCount opt

/-- Number of sampler calls consumed per password: the guaranteed draws, the
fill draws, and the `length - 1` shuffle draws. -/
def composeCost (opt : PasswordOptions) : Nat := passLen opt + (passLen opt - 1)

/-- All oracle calls in `[a, b)` succeed. -/
def okUpTo (g : Sampler) (a b : Nat) : Prop :=
  ∀ j, a ≤ j → j < b → ∃ n, g j = .ok n

end PassGen


namespace PassGen

/-! ### Basic facts about the alphabets and indexing -/

lemma getD_of_lt (l : List Char) (i : Nat) (d : Char) (h : i < l.length) :
    l.getD i d = l[i] := by
  simp [List.getD_eq_getElem?_getD, List.getElem?_eq_getElem h]

lemma getD_mem (l : List Char) (i : Nat) (d : Char) (h : i < l.length) :
    l.getD i d ∈ l := by
  rw [getD_of_lt l i d h]
  exact List.getElem_mem h

lemma uppercase_ne_nil : uppercase ≠ [] := by decide

lemma lowercase_ne_nil : lowercase ≠ [] := by decide

lemma numbers_ne_nil : numbers ≠ [] := by decide

lemma specialChars_ne_nil : specialChars ≠ [] := by decide

/-! ### The swap is a permutation -/

lemma multiset_set_eq (l : List Char) (n : Nat) (b : Char) (h : n < l.length) :
    ((l.set n b : List Char) : Multiset Char) = b ::ₘ ((l : Multiset Char).erase l[n]) := by
  induction l generalizing n with
  | nil => simp at h
  | cons a t ih =>
    cases n with
    | zero =>
      rw [List.set_cons_zero, List.getElem_cons_zero, ← Multiset.cons_coe,
        ← Multiset.cons_coe, Multiset.erase_cons_head]
    | succ m =>
      have hm : m < t.length := by simpa using h
      rw [List.set_cons_succ, List.getElem_cons_succ, ← Multiset.cons_coe,
        ← Multiset.cons_coe, ih m hm, Multiset.cons_swap]
      by_cases hx : t[m] = a
      · rw [← hx, Multiset.erase_cons_head]
        rw [Multiset.cons_erase (Multiset.mem_coe.mpr (List.getElem_mem hm))]
      · rw [Multiset.erase_cons_tail _ (fun hc => hx hc.symm)]

lemma listSwap_perm (l : List Char) (i j : Nat) (hi : i < l.length)
    (hj : j < l.length) : List.Perm (listSwap l i j) l := by
  rw [← Multiset.coe_eq_coe]
  unfold listSwap
  rw [getD_of_lt l j ' ' hj, getD_of_lt l i ' ' hi]
  have hj' : j < (l.set i l[j]).length := by simpa using hj
  rw [multiset_set_eq _ j _ hj', multiset_set_eq l i _ hi]
  have hval : (l.set i l[j])[j] = l[j] := by
    rw [List.getElem_set]
    split <;> rfl
  rw [hval, Multiset.erase_cons_head,
    Multiset.cons_erase (Multiset.mem_coe.mpr (List.getElem_mem hi))]

lemma listSwap_length (l : List Char) (i j : Nat) :
    (listSwap l i j).length = l.length := by
  simp [listSwap]

/-! ### Entropy bound helpers -/

lemma nat_mul_logb_lt_of (s n c : Nat) (hs : 0 < s) (h : s ^ n < 2 ^ c) :
    (n : ℝ) * Real.logb 2 (s : ℝ) < (c : ℝ) := by
  have h1 : (0 : ℝ) < (s : ℝ) ^ n := by positivity
  rw [← Real.logb_pow, Real.logb_lt_iff_lt_rpow one_lt_two h1, Real.rpow_natCast]
  exact_mod_cast h

lemma nat_le_mul_logb_of (s n c : Nat) (hs : 0 < s) (h : 2 ^ c ≤ s ^ n) :
    (c : ℝ) ≤ (n : ℝ) * Real.logb 2 (s : ℝ) := by
  have h1 : (0 : ℝ) < (s : ℝ) ^ n := by positivity
  rw [← Real.logb_pow, Real.le_logb_iff_rpow_le one_lt_two h1, Real.rpow_natCast]
  exact_mod_cast h

lemma nat_lt_mul_logb_of (s n c : Nat) (hs : 0 < s) (h : 2 ^ c < s ^ n) :
    (c : ℝ) < (n : ℝ) * Real.logb 2 (s : ℝ) := by
  have h1 : (0 : ℝ) < (s : ℝ) ^ n := by positivity
  rw [← Real.logb_pow, Real.lt_logb_iff_rpow_lt one_lt_two h1, Real.rpow_natCast]
  exact_mod_cast h

/-! ### Evaluating the strength switch -/

lemma strengthOf_weak {e : ℝ} (h : e < 40) : strengthOf e = "Weak" := by
  unfold strengthOf
  rw [if_neg (by linarith), if_neg (by linarith), if_neg (by linarith)]

lemma strengthOf_moderate {e : ℝ} (h1 : 40 ≤ e) (h2 : e < 60) :
    strengthOf e = "Moderate" := by
  unfold strengthOf
  rw [if_neg (by linarith), if_neg (by linarith), if_pos h1]

lemma strengthOf_strong {e : ℝ} (h1 : 60 ≤ e) (h2 : e < 80) :
    strengthOf e = "Strong" := by
  unfold strengthOf
  rw [if_neg (by linarith), if_pos h1]

lemma strengthOf_excellent {e : ℝ} (h : 80 ≤ e) : strengthOf e = "Excellent" := by
  unfold strengthOf
  rw [if_pos h]

/-! ### Characterizing successful validation -/

lemma validateOptions_eq_none_iff (opt : PasswordOptions) :
    validateOptions opt = none ↔
      (enabledCount opt : Int) ≤ opt.Length ∧ 1 ≤ opt.Count ∧
        (opt.UseUpper = true ∨ opt.UseLower = true ∨ opt.UseNumbers = true ∨
          opt.UseSpecialChars = true) := by
  obtain ⟨L, s, n, u, lo, c⟩ := opt
  cases s <;> cases n <;> cases u <;> cases lo <;>
    simp [validateOptions, enabledCount] <;> split_ifs <;> simp_all

end PassGen

namespace PassGen

/-! ### Inversion facts for the composer phases -/

lemma drawClass_ok_facts {use : Bool} {alpha : List Char} {g : Sampler}
    {acc acc' : List Char} {k k1 : Nat} (hne : alpha ≠ [])
    (h : drawClass use alpha g acc k = .ok (acc', k1)) :
    acc'.length = acc.length + (if use then 1 else 0) ∧
    k1 = k + (if use then 1 else 0) ∧
    (use = true → ∃ c ∈ alpha, c ∈ acc') ∧
    (∀ c ∈ acc, c ∈ acc') ∧
    (∀ c ∈ acc', c ∈ acc ∨ (use = true ∧ c ∈ alpha)) := by
  cases use with
  | false =>
    simp only [drawClass, Bool.false_eq_true, if_false] at h
    obtain ⟨h1, h2⟩ := Prod.mk.injEq .. ▸ Except.ok.inj h
    subst h1; subst h2
    exact ⟨by simp, by simp, by simp, fun c hc => hc, fun c hc => Or.inl hc⟩
  | true =>
    unfold drawClass secureRandomInt at h
    rcases hgk : g k with e | n <;> rw [hgk] at h <;> simp at h
    obtain ⟨h1, h2⟩ := h
    subst h1; subst h2
    have hm : alpha.getD (n % alpha.length) ' ' ∈ alpha :=
      getD_mem _ _ _ (Nat.mod_lt _ (List.length_pos.mpr hne))
    rw [List.getD_eq_getElem?_getD] at hm
    refine ⟨by simp, by simp, fun _ => ⟨_, hm, by simp⟩,
      fun c hc => by simp [hc], fun c hc => ?_⟩
    rcases List.mem_append.mp hc with hc | hc
    · exact Or.inl hc
    · refine Or.inr ⟨rfl, ?_⟩
      rw [List.mem_singleton.mp hc]
      exact hm

lemma fillLoop_ok_inv {g : Sampler} {cs : List Char} :
    ∀ {rem : Nat} {acc out : List Char} {k k1 : Nat},
      fillLoop g cs rem acc k = .ok (out, k1) →
      ∃ extra : List Char, out = acc ++ extra ∧ extra.length = rem ∧
        (cs ≠ [] → ∀ c ∈ extra, c ∈ cs) ∧ k1 = k + rem := by
  intro rem
  induction rem with
  | zero =>
    intro acc out k k1 h
    simp only [fillLoop] at h
    obtain ⟨h1, h2⟩ := Prod.mk.injEq .. ▸ Except.ok.inj h
    exact ⟨[], by simp [h1.symm], rfl, by simp, by omega⟩
  | succ r ih =>
    intro acc out k k1 h
    unfold fillLoop secureRandomInt at h
    rcases hgk : g k with e | n <;> rw [hgk] at h <;> simp at h
    obtain ⟨extra, hout, hlen, hmem, hk⟩ := ih h
    refine ⟨cs.getD (n % cs.length) ' ' :: extra, by simp [hout], by simp [hlen],
      fun hcs c hc => ?_, by omega⟩
    rcases List.mem_cons.mp hc with hc | hc
    · rw [hc]
      exact getD_mem _ _ _ (Nat.mod_lt _ (List.length_pos.mpr hcs))
    · exact hmem hcs c hc

lemma shuffleIter_ok_inv {g : Sampler} {N : Nat} :
    ∀ {rem i : Nat} {runes out : List Char} {k k1 : Nat},
      runes.length = N → i + rem ≤ N - 1 →
      shuffleIter g N i rem runes k = .ok (out, k1) →
      List.Perm out runes ∧ k1 = k + rem := by
  intro rem
  induction rem with
  | zero =>
    intro i runes out k k1 hlen hle h
    simp only [shuffleIter] at h
    obtain ⟨h1, h2⟩ := Prod.mk.injEq .. ▸ Except.ok.inj h
    exact ⟨h1 ▸ List.Perm.refl _, by omega⟩
  | succ r ih =>
    intro i runes out k k1 hlen hle h
    unfold shuffleIter secureRandomInt at h
    rcases hgk : g k with e | n <;> rw [hgk] at h <;> simp at h
    have hN2 : i + 2 ≤ N := by omega
    have hi : i < runes.length := by omega
    have hr : n % (N - i) + i < runes.length := by
      have := Nat.mod_lt n (y := N - i) (by omega)
      omega
    have hlen' : (listSwap runes i (n % (N - i) + i)).length = N := by
      rw [listSwap_length]; exact hlen
    have hle' : (i + 1) + r ≤ N - 1 := by omega
    obtain ⟨hperm, hk⟩ := ih hlen' hle' h
    exact ⟨hperm.trans (listSwap_perm _ _ _ hi hr), by omega⟩

/-! ### The combined charset -/

lemma mem_buildCharset_iff (opt : PasswordOptions) (c : Char) :
    c ∈ buildCharset opt ↔
      ((opt.UseUpper = true ∧ c ∈ uppercase) ∨ (opt.UseLower = true ∧ c ∈ lowercase) ∨
        (opt.UseNumbers = true ∧ c ∈ numbers) ∨
        (opt.UseSpecialChars = true ∧ c ∈ specialChars)) := by
  cases hU : opt.UseUpper <;> cases hL : opt.UseLower <;> cases hN : opt.UseNumbers <;>
    cases hS : opt.UseSpecialChars <;> simp [buildCharset, hU, hL, hN, hS]

lemma buildCharset_ne_nil (opt : PasswordOptions)
    (h : opt.UseUpper = true ∨ opt.UseLower = true ∨ opt.UseNumbers = true ∨
      opt.UseSpecialChars = true) : buildCharset opt ≠ [] := by
  cases hU : opt.UseUpper <;> cases hL : opt.UseLower <;> cases hN : opt.UseNumbers <;>
    cases hS : opt.UseSpecialChars <;> simp_all [buildCharset] <;> decide

end PassGen

namespace PassGen

/-- Everything a successful `composeOne` guarantees: exact length, exact
sampler-call count, presence of every enabled class, and confinement to the
combined charset. -/
lemma composeOne_ok_spec {opt : PasswordOptions} {g : Sampler} {k k1 : Nat}
    {pwd : List Char} (hv : validateOptions opt = none)
    (h : composeOne opt g k = .ok (pwd, k1)) :
    pwd.length = passLen opt ∧ k1 = k + composeCost opt ∧
    (opt.UseUpper = true → ∃ c ∈ pwd, c ∈ uppercase) ∧
    (opt.UseLower = true → ∃ c ∈ pwd, c ∈ lowercase) ∧
    (opt.UseNumbers = true → ∃ c ∈ pwd, c ∈ numbers) ∧
    (opt.UseSpecialChars = true → ∃ c ∈ pwd, c ∈ specialChars) ∧
    (∀ c ∈ pwd, c ∈ buildCharset opt) := by
  obtain ⟨hvl, hvc, hvflag⟩ := (validateOptions_eq_none_iff opt).mp hv
  unfold composeOne at h
  split at h
  · simp at h
  rename_i a1 ka hU1
  split at h
  · simp at h
  rename_i a2 kb hL1
  split at h
  · simp at h
  rename_i a3 kc hN1
  split at h
  · simp at h
  rename_i a4 kd hS1
  split at h
  · simp at h
  rename_i filled ke hF1
  obtain ⟨len1, kk1, pres1, sub1, mem1⟩ := drawClass_ok_facts uppercase_ne_nil hU1
  obtain ⟨len2, kk2, pres2, sub2, mem2⟩ := drawClass_ok_facts lowercase_ne_nil hL1
  obtain ⟨len3, kk3, pres3, sub3, mem3⟩ := drawClass_ok_facts numbers_ne_nil hN1
  obtain ⟨len4, kk4, pres4, sub4, mem4⟩ := drawClass_ok_facts specialChars_ne_nil hS1
  obtain ⟨extra, hfo, hflen, hfmem, hfk⟩ := fillLoop_ok_inv hF1
  have hcs : buildCharset opt ≠ [] := buildCharset_ne_nil opt hvflag
  obtain ⟨hperm, hsk⟩ := shuffleIter_ok_inv rfl (by omega) h
  have ha4 : a4.length = enabledCount opt := by
    rw [len4, len3, len2, len1]
    simp only [List.length_nil, enabledCount]
    omega
  have hfillc : extra.length = fillCount opt := by
    rw [hflen, ha4]; rfl
  have hfl : filled.length = passLen opt := by
    rw [hfo, List.length_append, ha4, hfillc]; rfl
  have hpl : pwd.length = passLen opt := by rw [hperm.length_eq, hfl]
  have hmemfilled : ∀ c, c ∈ pwd ↔ c ∈ filled := fun c => hperm.mem_iff
  refine ⟨hpl, ?_, ?_, ?_, ?_, ?_, ?_⟩
  · rw [hsk, hfk, kk4, kk3, kk2, kk1, hfl, ha4]
    simp only [composeCost, passLen, fillCount, enabledCount]
    omega
  · intro hU
    obtain ⟨c, hca, hc1⟩ := pres1 hU
    exact ⟨c, (hmemfilled c).mpr (hfo ▸ List.mem_append_left _
      (sub4 c (sub3 c (sub2 c hc1)))), hca⟩
  · intro hL
    obtain ⟨c, hca, hc2⟩ := pres2 hL
    exact ⟨c, (hmemfilled c).mpr (hfo ▸ List.mem_append_left _
      (sub4 c (sub3 c hc2))), hca⟩
  · intro hN
    obtain ⟨c, hca, hc3⟩ := pres3 hN
    exact ⟨c, (hmemfilled c).mpr (hfo ▸ List.mem_append_left _ (sub4 c hc3)), hca⟩
  · intro hS
    obtain ⟨c, hca, hc4⟩ := pres4 hS
    exact ⟨c, (hmemfilled c).mpr (hfo ▸ List.mem_append_left _ hc4), hca⟩
  · intro c hc
    have hcf : c ∈ filled := (hmemfilled c).mp hc
    rw [hfo] at hcf
    rcases List.mem_append.mp hcf with hc4 | hcx
    · rcases mem4 c hc4 with hc3 | ⟨hS, hsp⟩
      · rcases mem3 c hc3 with hc2 | ⟨hN, hnm⟩
        · rcases mem2 c hc2 with hc1 | ⟨hL, hlo⟩
          · rcases mem1 c hc1 with hc0 | ⟨hU, hup⟩
            · simp at hc0
            · exact (mem_buildCharset_iff opt c).mpr (Or.inl ⟨hU, hup⟩)
          · exact (mem_buildCharset_iff opt c).mpr (Or.inr (Or.inl ⟨hL, hlo⟩))
        · exact (mem_buildCharset_iff opt c).mpr (Or.inr (Or.inr (Or.inl ⟨hN, hnm⟩)))
      · exact (mem_buildCharset_iff opt c).mpr (Or.inr (Or.inr (Or.inr ⟨hS, hsp⟩)))
    · exact hfmem hcs c hcx

end PassGen

namespace PassGen

/-! ### Analyzer-side facts -/

lemma uppercase_length : uppercase.length = 26 := by decide

lemma lowercase_length : lowercase.length = 26 := by decide

lemma numbers_length : numbers.length = 10 := by decide

lemma specialChars_length : specialChars.length = 27 := by decide

lemma upper_case_true : ∀ c ∈ uppercase, caseUpper c = true := by decide

lemma lower_case_true : ∀ c ∈ lowercase, caseLower c = true := by decide

lemma digit_case_true : ∀ c ∈ numbers, caseDigit c = true := by decide

lemma special_case_true : ∀ c ∈ specialChars, caseSpecial c = true := by decide

lemma observed_pos {p : List Char} {c : Char} (hc : c ∈ p)
    (hrec : caseUpper c = true ∨ caseLower c = true ∨ caseDigit c = true ∨
      caseSpecial c = true) : observedCharsetSize p ≠ 0 := by
  unfold observedCharsetSize
  rcases hrec with h | h | h | h
  · have hf : hasUpperIn p = true := List.any_eq_true.mpr ⟨c, hc, h⟩
    simp [hf, uppercase_length]
  · have hf : hasLowerIn p = true := List.any_eq_true.mpr ⟨c, hc, h⟩
    simp [hf, lowercase_length]
  · have hf : hasNumberIn p = true := List.any_eq_true.mpr ⟨c, hc, h⟩
    simp [hf, numbers_length]
  · have hf : hasSpecialIn p = true := List.any_eq_true.mpr ⟨c, hc, h⟩
    simp [hf, specialChars_length]

/-- On a non-empty password with a non-zero observed charset, the analyzer
succeeds with exactly the `length * log2(size)` entropy and its strength
label. -/
lemma passwordEntropy_ok {p : List Char} (h1 : p ≠ [])
    (h2 : observedCharsetSize p ≠ 0) :
    PasswordEntropy p = .ok ((p.length : ℝ) * Real.logb 2 (observedCharsetSize p : ℝ),
      strengthOf ((p.length : ℝ) * Real.logb 2 (observedCharsetSize p : ℝ))) := by
  unfold PasswordEntropy
  rw [if_neg (by simpa using h1), if_neg h2]

/-- A password produced by a successful `composeOne` under valid options is
non-empty and analyzable: the analyzer's two error branches are unreachable. -/
lemma composed_analyzable {opt : PasswordOptions} {g : Sampler} {k k1 : Nat}
    {pwd : List Char} (hv : validateOptions opt = none)
    (h : composeOne opt g k = .ok (pwd, k1)) :
    pwd ≠ [] ∧ observedCharsetSize pwd ≠ 0 := by
  obtain ⟨_, _, hvflag⟩ := (validateOptions_eq_none_iff opt).mp hv
  obtain ⟨_, _, pU, pL, pN, pS, _⟩ := composeOne_ok_spec hv h
  have : ∃ c ∈ pwd, caseUpper c = true ∨ caseLower c = true ∨ caseDigit c = true ∨
      caseSpecial c = true := by
    rcases hvflag with hf | hf | hf | hf
    · obtain ⟨c, hcp, hca⟩ := pU hf
      exact ⟨c, hcp, Or.inl (upper_case_true c hca)⟩
    · obtain ⟨c, hcp, hca⟩ := pL hf
      exact ⟨c, hcp, Or.inr (Or.inl (lower_case_true c hca))⟩
    · obtain ⟨c, hcp, hca⟩ := pN hf
      exact ⟨c, hcp, Or.inr (Or.inr (Or.inl (digit_case_true c hca)))⟩
    · obtain ⟨c, hcp, hca⟩ := pS hf
      exact ⟨c, hcp, Or.inr (Or.inr (Or.inr (special_case_true c hca)))⟩
  obtain ⟨c, hcp, hcase⟩ := this
  exact ⟨List.ne_nil_of_mem hcp, observed_pos hcp hcase⟩

/-! ### Batch-loop inversion -/

lemma genLoop_ok_inv {opt : PasswordOptions} {g : Sampler} :
    ∀ {n k : Nat} {pws : List GeneratedPassword} {k2 : Nat},
      genLoop opt g n k = .ok (pws, k2) →
      pws.length = n ∧ ∀ p ∈ pws, ∃ ka kb, composeOne opt g ka = .ok (p.Value, kb) ∧
        PasswordEntropy p.Value = .ok (p.Entropy, p.Strength) := by
  intro n
  induction n with
  | zero =>
    intro k pws k2 h
    simp only [genLoop] at h
    obtain ⟨h1, h2⟩ := Prod.mk.injEq .. ▸ Except.ok.inj h
    subst h1
    exact ⟨rfl, by simp⟩
  | succ m ih =>
    intro k pws k2 h
    unfold genLoop at h
    split at h
    · simp at h
    rename_i pwd ka hC
    split at h
    · simp at h
    rename_i ent str hE
    split at h
    · simp at h
    rename_i rest kb hR
    obtain ⟨h1, h2⟩ := Prod.mk.injEq .. ▸ Except.ok.inj h
    subst h1
    obtain ⟨hlen, hmem⟩ := ih hR
    refine ⟨by simp [hlen], fun p hp => ?_⟩
    rcases List.mem_cons.mp hp with hp | hp
    · exact ⟨k, ka, by rw [hp]; exact hC, by rw [hp]; exact hE⟩
    · exact hmem p hp

lemma generatePassword_ok_inv {opt : PasswordOptions} {g : Sampler}
    {pws : List GeneratedPassword} (h : GeneratePassword opt g = .ok pws) :
    validateOptions opt = none ∧
      ∃ k2, genLoop opt g opt.Count.toNat 0 = .ok (pws, k2) := by
  unfold GeneratePassword at h
  split at h
  · simp at h
  rename_i hval
  split at h
  · simp at h
  rename_i pws' k2 hloop
  exact ⟨hval, k2, by rw [Except.ok.inj h] at hloop; exact hloop⟩

end PassGen

namespace PassGen

/-! ### Forward evaluation of the phases under a known oracle prefix -/

lemma okUpTo_mono {g : Sampler} {a b a' b' : Nat} (h : okUpTo g a b)
    (ha : a ≤ a') (hb : b' ≤ b) : okUpTo g a' b' :=
  fun j h1 h2 => h j (le_trans ha h1) (lt_of_lt_of_le h2 hb)

lemma drawClass_ok_of {u : Bool} {A : List Char} {g : Sampler}
    {a : List Char} {k : Nat} (h : u = true → ∃ n, g k = .ok n) :
    ∃ a2, drawClass u A g a k = .ok (a2, k + (if u then 1 else 0)) ∧
      a2.length = a.length + (if u then 1 else 0) := by
  cases u with
  | false => exact ⟨a, by simp [drawClass], by simp⟩
  | true =>
    obtain ⟨n, hn⟩ := h rfl
    refine ⟨a ++ [A.getD (n % A.length) ' '], ?_, by simp⟩
    simp [drawClass, secureRandomInt, hn]

lemma drawClass_err {alpha : List Char} {g : Sampler} {acc : List Char}
    {k : Nat} {e : String} (he : g k = .error e) :
    drawClass true alpha g acc k =
      .error ("failed to generate random number: " ++ e) := by
  simp [drawClass, secureRandomInt, he]

lemma fillLoop_ok_of {g : Sampler} {c : List Char} :
    ∀ {m : Nat} {a : List Char} {k : Nat}, okUpTo g k (k + m) →
      ∃ out, fillLoop g c m a k = .ok (out, k + m) ∧
        out.length = a.length + m := by
  intro m
  induction m with
  | zero => intro a k _; exact ⟨a, by simp [fillLoop], by simp⟩
  | succ r ih =>
    intro a k h
    obtain ⟨n, hn⟩ := h k (le_refl k) (by omega)
    obtain ⟨out, ho, hol⟩ :=
      ih (a := a ++ [c.getD (n % c.length) ' ']) (k := k + 1)
        (okUpTo_mono h (by omega) (by omega))
    refine ⟨out, ?_, by simp at hol; omega⟩
    have harith : k + (r + 1) = (k + 1) + r := by omega
    rw [harith]
    simpa [fillLoop, secureRandomInt, hn] using ho

lemma fillLoop_err {g : Sampler} {c : List Char} :
    ∀ {m : Nat} {a : List Char} {k j : Nat} {e : String},
      k ≤ j → j < k + m → okUpTo g k j → g j = .error e →
      fillLoop g c m a k =
        .error ("failed to generate random number: " ++ e) := by
  intro m
  induction m with
  | zero => intro a k j e h1 h2 _ _; exact absurd h1 (by omega)
  | succ r ih =>
    intro a k j e hkj hjr hok hge
    by_cases hjk : j = k
    · subst hjk
      simp [fillLoop, secureRandomInt, hge]
    · obtain ⟨n, hn⟩ := hok k (le_refl _) (by omega)
      have hrec := ih (a := a ++ [c.getD (n % c.length) ' '])
        (by omega : k + 1 ≤ j) (by omega : j < (k + 1) + r)
        (okUpTo_mono hok (by omega) (le_refl _)) hge
      simpa [fillLoop, secureRandomInt, hn] using hrec

lemma shuffleIter_ok_of {g : Sampler} {N : Nat} :
    ∀ {m i : Nat} {w : List Char} {k : Nat}, okUpTo g k (k + m) →
      ∃ out, shuffleIter g N i m w k = .ok (out, k + m) := by
  intro m
  induction m with
  | zero => intro i w k _; exact ⟨w, by simp [shuffleIter]⟩
  | succ r ih =>
    intro i w k h
    obtain ⟨n, hn⟩ := h k (le_refl k) (by omega)
    obtain ⟨out, ho⟩ :=
      ih (i := i + 1) (w := listSwap w i (n % (N - i) + i)) (k := k + 1)
        (okUpTo_mono h (by omega) (by omega))
    refine ⟨out, ?_⟩
    have harith : k + (r + 1) = (k + 1) + r := by omega
    rw [harith]
    simpa [shuffleIter, secureRandomInt, hn] using ho

lemma shuffleIter_err {g : Sampler} {N : Nat} :
    ∀ {m i : Nat} {w : List Char} {k j : Nat} {e : String},
      k ≤ j → j < k + m → okUpTo g k j → g j = .error e →
      shuffleIter g N i m w k =
        .error ("failed to generate random number: " ++ e) := by
  intro m
  induction m with
  | zero => intro i w k j e h1 h2 _ _; exact absurd h1 (by omega)
  | succ r ih =>
    intro i w k j e hkj hjr hok hge
    by_cases hjk : j = k
    · subst hjk
      simp [shuffleIter, secureRandomInt, hge]
    · obtain ⟨n, hn⟩ := hok k (le_refl _) (by omega)
      have hrec := ih (i := i + 1) (w := listSwap w i (n % (N - i) + i))
        (by omega : k + 1 ≤ j) (by omega : j < (k + 1) + r)
        (okUpTo_mono hok (by omega) (le_refl _)) hge
      simpa [shuffleIter, secureRandomInt, hn] using hrec

end PassGen

namespace PassGen

lemma ifsum_eq_enabledCount (opt : PasswordOptions) :
    (if opt.UseUpper = true then 1 else 0) + (if opt.UseLower = true then 1 else 0) +
      (if opt.UseNumbers = true then 1 else 0) +
      (if opt.UseSpecialChars = true then 1 else 0) = enabledCount opt := by
  cases hU : opt.UseUpper <;> cases hL : opt.UseLower <;> cases hN : opt.UseNumbers <;>
    cases hS : opt.UseSpecialChars <;> simp [enabledCount, hU, hL, hN, hS]

/-- If the oracle answers the whole per-password window, `composeOne`
succeeds and consumes exactly `composeCost opt` calls. -/
lemma composeOne_ok_of {opt : PasswordOptions} {g : Sampler} {k : Nat}
    (h : okUpTo g k (k + composeCost opt)) :
    ∃ pwd, composeOne opt g k = .ok (pwd, k + composeCost opt) := by
  have hsum := ifsum_eq_enabledCount opt
  have hcc : composeCost opt =
      enabledCount opt + fillCount opt + (enabledCount opt + fillCount opt - 1) := rfl
  obtain ⟨a1, hd1, hl1⟩ := drawClass_ok_of (u := opt.UseUpper) (A := uppercase)
    (g := g) (a := ([] : List Char)) (k := k)
    (fun hU => h k (le_refl _) (by simp [hU] at hsum; omega))
  obtain ⟨a2, hd2, hl2⟩ := drawClass_ok_of (u := opt.UseLower) (A := lowercase)
    (g := g) (a := a1) (k := k + (if opt.UseUpper = true then 1 else 0))
    (fun hL => h (k + (if opt.UseUpper = true then 1 else 0)) (by omega)
      (by simp [hL] at hsum; omega))
  obtain ⟨a3, hd3, hl3⟩ := drawClass_ok_of (u := opt.UseNumbers) (A := numbers)
    (g := g) (a := a2)
    (k := k + (if opt.UseUpper = true then 1 else 0) +
      (if opt.UseLower = true then 1 else 0))
    (fun hN => h (k + (if opt.UseUpper = true then 1 else 0) +
      (if opt.UseLower = true then 1 else 0)) (by omega)
      (by simp [hN] at hsum; omega))
  obtain ⟨a4, hd4, hl4⟩ := drawClass_ok_of (u := opt.UseSpecialChars)
    (A := specialChars) (g := g) (a := a3)
    (k := k + (if opt.UseUpper = true then 1 else 0) +
      (if opt.UseLower = true then 1 else 0) + (if opt.UseNumbers = true then 1 else 0))
    (fun hS => h (k + (if opt.UseUpper = true then 1 else 0) +
      (if opt.UseLower = true then 1 else 0) + (if opt.UseNumbers = true then 1 else 0))
      (by omega) (by simp [hS] at hsum; omega))
  have ha4 : a4.length = enabledCount opt := by
    rw [hl4, hl3, hl2, hl1]
    simp only [List.length_nil]
    omega
  have hremfc : (opt.Length - (a4.length : Int)).toNat = fillCount opt := by
    rw [ha4]; rfl
  have hofill : okUpTo g
      (k + (if opt.UseUpper = true then 1 else 0) +
        (if opt.UseLower = true then 1 else 0) +
        (if opt.UseNumbers = true then 1 else 0) +
        (if opt.UseSpecialChars = true then 1 else 0))
      (k + (if opt.UseUpper = true then 1 else 0) +
        (if opt.UseLower = true then 1 else 0) +
        (if opt.UseNumbers = true then 1 else 0) +
        (if opt.UseSpecialChars = true then 1 else 0) +
        (opt.Length - (a4.length : Int)).toNat) :=
    okUpTo_mono h (by omega) (by omega)
  obtain ⟨filled, hf, hfl⟩ := fillLoop_ok_of (g := g) (c := buildCharset opt) hofill
  have hfilledlen : filled.length = enabledCount opt + fillCount opt := by
    rw [hfl, ha4]
    rfl
  have hoshuf : okUpTo g
      (k + (if opt.UseUpper = true then 1 else 0) +
        (if opt.UseLower = true then 1 else 0) +
        (if opt.UseNumbers = true then 1 else 0) +
        (if opt.UseSpecialChars = true then 1 else 0) +
        (opt.Length - (a4.length : Int)).toNat)
      (k + (if opt.UseUpper = true then 1 else 0) +
        (if opt.UseLower = true then 1 else 0) +
        (if opt.UseNumbers = true then 1 else 0) +
        (if opt.UseSpecialChars = true then 1 else 0) +
        (opt.Length - (a4.length : Int)).toNat + (filled.length - 1)) :=
    okUpTo_mono h (by omega) (by omega)
  obtain ⟨out, hs⟩ := shuffleIter_ok_of (g := g) (N := filled.length)
    (i := 0) (w := filled) hoshuf
  refine ⟨out, ?_⟩
  simp only [composeOne, hd1, hd2, hd3, hd4, hf]
  rw [hs]
  have hfinal : k + (if opt.UseUpper = true then 1 else 0) +
      (if opt.UseLower = true then 1 else 0) + (if opt.UseNumbers = true then 1 else 0) +
      (if opt.UseSpecialChars = true then 1 else 0) +
      (opt.Length - (a4.length : Int)).toNat + (filled.length - 1) =
      k + composeCost opt := by omega
  rw [hfinal]

end PassGen

namespace PassGen

/-- If the first oracle failure falls inside the per-password window,
`composeOne` surfaces the wrapped sampler error. -/
lemma composeOne_err {opt : PasswordOptions} {g : Sampler} {k j : Nat} {e : String}
    (hkj : k ≤ j) (hlt : j < k + composeCost opt) (hok : okUpTo g k j)
    (hge : g j = .error e) :
    composeOne opt g k = .error ("failed to generate random number: " ++ e) := by
  have hsum := ifsum_eq_enabledCount opt
  have hcc : composeCost opt =
      enabledCount opt + fillCount opt + (enabledCount opt + fillCount opt - 1) := rfl
  by_cases hj1 : j < k + (if opt.UseUpper = true then 1 else 0)
  · cases hU : opt.UseUpper with
    | false => exfalso; simp [hU] at hj1; omega
    | true =>
      have hjeq : j = k := by simp [hU] at hj1; omega
      rw [hjeq] at hge
      simp only [composeOne, hU, drawClass_err hge]
  · push_neg at hj1
    obtain ⟨a1, hd1, hl1⟩ := drawClass_ok_of (u := opt.UseUpper) (A := uppercase)
      (g := g) (a := ([] : List Char)) (k := k)
      (fun hU => hok k (le_refl _) (by simp [hU] at hj1; omega))
    by_cases hj2 : j < k + (if opt.UseUpper = true then 1 else 0) +
      (if opt.UseLower = true then 1 else 0)
    · cases hL : opt.UseLower with
      | false => exfalso; simp [hL] at hj2; omega
      | true =>
        have hjeq : j = k + (if opt.UseUpper = true then 1 else 0) := by
          simp [hL] at hj2; omega
        rw [hjeq] at hge
        simp only [composeOne, hd1, hL, drawClass_err hge]
    · push_neg at hj2
      obtain ⟨a2, hd2, hl2⟩ := drawClass_ok_of (u := opt.UseLower) (A := lowercase)
        (g := g) (a := a1) (k := k + (if opt.UseUpper = true then 1 else 0))
        (fun hL => hok (k + (if opt.UseUpper = true then 1 else 0)) (by omega)
          (by simp [hL] at hj2; omega))
      by_cases hj3 : j < k + (if opt.UseUpper = true then 1 else 0) +
        (if opt.UseLower = true then 1 else 0) + (if opt.UseNumbers = true then 1 else 0)
      · cases hN : opt.UseNumbers with
        | false => exfalso; simp [hN] at hj3; omega
        | true =>
          have hjeq : j = k + (if opt.UseUpper = true then 1 else 0) +
              (if opt.UseLower = true then 1 else 0) := by
            simp [hN] at hj3; omega
          rw [hjeq] at hge
          simp only [composeOne, hd1, hd2, hN, drawClass_err hge]
      · push_neg at hj3
        obtain ⟨a3, hd3, hl3⟩ := drawClass_ok_of (u := opt.UseNumbers)
          (A := numbers) (g := g) (a := a2)
          (k := k + (if opt.UseUpper = true then 1 else 0) +
            (if opt.UseLower = true then 1 else 0))
          (fun hN => hok (k + (if opt.UseUpper = true then 1 else 0) +
            (if opt.UseLower = true then 1 else 0)) (by omega)
            (by simp [hN] at hj3; omega))
        by_cases hj4 : j < k + (if opt.UseUpper = true then 1 else 0) +
          (if opt.UseLower = true then 1 else 0) +
          (if opt.UseNumbers = true then 1 else 0) +
          (if opt.UseSpecialChars = true then 1 else 0)
        · cases hS : opt.UseSpecialChars with
          | false => exfalso; simp [hS] at hj4; omega
          | true =>
            have hjeq : j = k + (if opt.UseUpper = true then 1 else 0) +
                (if opt.UseLower = true then 1 else 0) +
                (if opt.UseNumbers = true then 1 else 0) := by
              simp [hS] at hj4; omega
            rw [hjeq] at hge
            simp only [composeOne, hd1, hd2, hd3, hS, drawClass_err hge]
        · push_neg at hj4
          obtain ⟨a4, hd4, hl4⟩ := drawClass_ok_of (u := opt.UseSpecialChars)
            (A := specialChars) (g := g) (a := a3)
            (k := k + (if opt.UseUpper = true then 1 else 0) +
              (if opt.UseLower = true then 1 else 0) +
              (if opt.UseNumbers = true then 1 else 0))
            (fun hS => hok (k + (if opt.UseUpper = true then 1 else 0) +
              (if opt.UseLower = true then 1 else 0) +
              (if opt.UseNumbers = true then 1 else 0)) (by omega)
              (by simp [hS] at hj4; omega))
          have ha4 : a4.length = enabledCount opt := by
            rw [hl4, hl3, hl2, hl1]
            simp only [List.length_nil]
            omega
          have hremfc : (opt.Length - (a4.length : Int)).toNat = fillCount opt := by
            rw [ha4]; rfl
          by_cases hj5 : j < k + (if opt.UseUpper = true then 1 else 0) +
            (if opt.UseLower = true then 1 else 0) +
            (if opt.UseNumbers = true then 1 else 0) +
            (if opt.UseSpecialChars = true then 1 else 0) +
            (opt.Length - (a4.length : Int)).toNat
          · have hfe := fillLoop_err (g := g) (c := buildCharset opt) (a := a4)
              hj4 hj5 (okUpTo_mono hok (by omega) (le_refl _)) hge
            simp only [composeOne, hd1, hd2, hd3, hd4, hfe]
          · push_neg at hj5
            have hofill : okUpTo g
                (k + (if opt.UseUpper = true then 1 else 0) +
                  (if opt.UseLower = true then 1 else 0) +
                  (if opt.UseNumbers = true then 1 else 0) +
                  (if opt.UseSpecialChars = true then 1 else 0))
                (k + (if opt.UseUpper = true then 1 else 0) +
                  (if opt.UseLower = true then 1 else 0) +
                  (if opt.UseNumbers = true then 1 else 0) +
                  (if opt.UseSpecialChars = true then 1 else 0) +
                  (opt.Length - (a4.length : Int)).toNat) :=
              okUpTo_mono hok (by omega) (by omega)
            obtain ⟨filled, hf, hfl⟩ :=
              fillLoop_ok_of (g := g) (c := buildCharset opt) hofill
            have hfilledlen : filled.length = enabledCount opt + fillCount opt := by
              rw [hfl, ha4]
              rfl
            have hse := shuffleIter_err (g := g) (N := filled.length) (i := 0)
              (w := filled) (m := filled.length - 1) hj5 (by omega)
              (okUpTo_mono hok (by omega) (le_refl _)) hge
            simp only [composeOne, hd1, hd2, hd3, hd4, hf, hse]

end PassGen

namespace PassGen

lemma genLoop_ok_of {opt : PasswordOptions} {g : Sampler}
    (hv : validateOptions opt = none) :
    ∀ {n k : Nat}, okUpTo g k (k + n * composeCost opt) →
      ∃ pws, genLoop opt g n k = .ok (pws, k + n * composeCost opt) := by
  intro n
  induction n with
  | zero => intro k _; exact ⟨[], by simp [genLoop]⟩
  | succ m ih =>
    intro k h
    have hmul : k + (m + 1) * composeCost opt =
        k + composeCost opt + m * composeCost opt := by
      rw [Nat.succ_mul]; omega
    have hco : okUpTo g k (k + composeCost opt) :=
      okUpTo_mono h (le_refl _) (by rw [hmul]; omega)
    obtain ⟨pwd, hc⟩ := composeOne_ok_of hco
    obtain ⟨hne, hobs⟩ := composed_analyzable hv hc
    have hcr : okUpTo g (k + composeCost opt)
        (k + composeCost opt + m * composeCost opt) :=
      okUpTo_mono h (by omega) (by rw [hmul])
    have hpe := passwordEntropy_ok hne hobs
    obtain ⟨rest, hr⟩ := ih (k := k + composeCost opt) hcr
    refine ⟨⟨pwd, strengthOf ((pwd.length : ℝ) * Real.logb 2 (observedCharsetSize pwd : ℝ)),
      (pwd.length : ℝ) * Real.logb 2 (observedCharsetSize pwd : ℝ)⟩ :: rest, ?_⟩
    simp only [genLoop, hc, hpe, hr]
    rw [hmul]

lemma genLoop_err {opt : PasswordOptions} {g : Sampler}
    (hv : validateOptions opt = none) :
    ∀ {n k j : Nat} {e : String}, k ≤ j → j < k + n * composeCost opt →
      okUpTo g k j → g j = .error e →
      genLoop opt g n k = .error ("failed to generate random number: " ++ e) := by
  intro n
  induction n with
  | zero =>
    intro k j e h1 h2 _ _
    exact absurd h1 (by omega)
  | succ m ih =>
    intro k j e hkj hlt hok hge
    have hmul : k + (m + 1) * composeCost opt =
        k + composeCost opt + m * composeCost opt := by
      rw [Nat.succ_mul]; omega
    by_cases hc : j < k + composeCost opt
    · have he := composeOne_err hkj hc hok hge
      simp only [genLoop, he]
    · push_neg at hc
      obtain ⟨pwd, hcok⟩ := composeOne_ok_of (okUpTo_mono hok (le_refl _) hc)
      obtain ⟨hne, hobs⟩ := composed_analyzable hv hcok
      have hpe := passwordEntropy_ok hne hobs
      have hjlt : j < k + composeCost opt + m * composeCost opt := by omega
      have hrec := ih (k := k + composeCost opt) hc hjlt
        (okUpTo_mono hok (by omega) (le_refl _)) hge
      simp only [genLoop, hcok, hpe, hrec]

end PassGen

namespace PassGen

/-! ### Concrete instances used as witnesses -/

/-- A small valid request: one digit-only password of length 1. -/
def opt0 : PasswordOptions := ⟨1, false, true, false, false, 1⟩

/-- An always-succeeding oracle that returns 0. -/
def g0 : Sampler := fun _ => .ok 0

/-- An always-failing oracle. -/
def gErr : Sampler := fun _ => .error "entropy source unavailable"

lemma compose0 : composeOne opt0 g0 0 = .ok (['0'], 1) := rfl

lemma obs0 : observedCharsetSize ['0'] = 10 := by decide

lemma logb_ten_lt_forty : Real.logb 2 (10 : ℝ) < 40 := by
  have h := nat_mul_logb_lt_of 10 1 40 (by norm_num) (by norm_num)
  push_cast at h
  linarith

lemma pe0 : PasswordEntropy ['0'] = .ok (Real.logb 2 10, "Weak") := by
  rw [passwordEntropy_ok (by decide) (by decide), obs0]
  norm_num
  exact strengthOf_weak (by simpa using logb_ten_lt_forty)

lemma genLoop0 : genLoop opt0 g0 1 0 =
    .ok ([⟨['0'], "Weak", Real.logb 2 10⟩], 1) := by
  simp only [genLoop, compose0, pe0]

lemma gen0 : GeneratePassword opt0 g0 = .ok [⟨['0'], "Weak", Real.logb 2 10⟩] := by
  have h1 : validateOptions opt0 = none := by decide
  have h2 : opt0.Count.toNat = 1 := rfl
  simp only [GeneratePassword, h1, h2, genLoop0]

end PassGen

namespace PassGen

/-! ### Claim theorems -/

/-- C5: for every rune sequence and every oracle, a successful `shuffle`
returns a permutation of its input: the multiset of characters is unchanged. -/
theorem shuffle_preserves_multiset (g : Sampler) (runes out : List Char)
    (k k1 : Nat) (h : shuffle g runes k = .ok (out, k1)) :
    (out : Multiset Char) = (runes : Multiset Char) := by
  unfold shuffle at h
  obtain ⟨hperm, _⟩ := shuffleIter_ok_inv (N := runes.length) rfl (by omega) h
  exact Multiset.coe_eq_coe.mpr hperm

/-- Witness for C5 at a concrete two-element list and oracle. -/
theorem shuffle_preserves_multiset_example :
    ((['b', 'a'] : List Char) : Multiset Char) =
      ((['a', 'b'] : List Char) : Multiset Char) :=
  shuffle_preserves_multiset (fun _ => .ok 1) ['a', 'b'] ['b', 'a'] 0 1 rfl

/-- C7: the strength label is "Excellent" iff entropy is at least 80,
"Strong" iff it is in [60, 80), "Moderate" iff in [40, 60), and "Weak" iff
below 40; every lower bound is inclusive. -/
theorem strength_label_thresholds (e : ℝ) :
    (strengthOf e = "Excellent" ↔ 80 ≤ e) ∧
    (strengthOf e = "Strong" ↔ 60 ≤ e ∧ e < 80) ∧
    (strengthOf e = "Moderate" ↔ 40 ≤ e ∧ e < 60) ∧
    (strengthOf e = "Weak" ↔ e < 40) := by
  unfold strengthOf
  split_ifs with h1 h2 h3
  · exact ⟨⟨fun _ => h1, fun _ => rfl⟩,
      ⟨fun hx => absurd hx (by decide), fun hx => absurd h1 (not_le.mpr hx.2)⟩,
      ⟨fun hx => absurd hx (by decide),
        fun hx => absurd h1 (not_le.mpr (by linarith [hx.2]))⟩,
      ⟨fun hx => absurd hx (by decide),
        fun hx => absurd h1 (not_le.mpr (by linarith))⟩⟩
  · exact ⟨⟨fun hx => absurd hx (by decide), fun hx => absurd hx h1⟩,
      ⟨fun _ => ⟨h2, not_le.mp h1⟩, fun _ => rfl⟩,
      ⟨fun hx => absurd hx (by decide), fun hx => absurd h2 (not_le.mpr hx.2)⟩,
      ⟨fun hx => absurd hx (by decide),
        fun hx => absurd h2 (not_le.mpr (by linarith))⟩⟩
  · exact ⟨⟨fun hx => absurd hx (by decide), fun hx => absurd hx h1⟩,
      ⟨fun hx => absurd hx (by decide), fun hx => absurd hx.1 h2⟩,
      ⟨fun _ => ⟨h3, not_le.mp h2⟩, fun _ => rfl⟩,
      ⟨fun hx => absurd hx (by decide), fun hx => absurd h3 (not_le.mpr hx)⟩⟩
  · exact ⟨⟨fun hx => absurd hx (by decide), fun hx => absurd hx h1⟩,
      ⟨fun hx => absurd hx (by decide), fun hx => absurd hx.1 h2⟩,
      ⟨fun hx => absurd hx (by decide), fun hx => absurd hx.1 h3⟩,
      ⟨fun _ => not_le.mp h3, fun _ => rfl⟩⟩

/-- C3 counterexample: all four flags false but count 0 yields the count
error, not the no-charset-selected error, refuting "regardless of
length/count". -/
theorem noCharset_error_not_universal :
    GeneratePassword ⟨5, false, false, false, false, 0⟩ g0 =
      .error "count must be greater than 0" ∧
    "count must be greater than 0" ≠ "at least one character set must be selected" := by
  constructor
  · have hv : validateOptions ⟨5, false, false, false, false, 0⟩ =
        some "count must be greater than 0" := by decide
    simp only [GeneratePassword, hv]
  · decide

/-- C3 amended: with all four class flags false, `GeneratePassword` always
fails; it fails with the no-charset-selected error if and only if the earlier
length and count checks pass (length ≥ 0 and count ≥ 1), while a negative
length surfaces the length error and a count < 1 (at length ≥ 0) surfaces the
count error instead. -/
theorem noCharset_error_when_length_count_ok (opt : PasswordOptions) (g : Sampler)
    (hU : opt.UseUpper = false) (hL : opt.UseLower = false)
    (hN : opt.UseNumbers = false) (hS : opt.UseSpecialChars = false) :
    (∃ e, GeneratePassword opt g = .error e) ∧
    (GeneratePassword opt g = .error "at least one character set must be selected" ↔
      0 ≤ opt.Length ∧ 1 ≤ opt.Count) ∧
    (opt.Length < 0 →
      GeneratePassword opt g =
        .error "length is too short for the selected character sets") ∧
    (0 ≤ opt.Length → opt.Count < 1 →
      GeneratePassword opt g = .error "count must be greater than 0") := by
  have hval : ∀ s, validateOptions opt = some s → GeneratePassword opt g = .error s := by
    intro s hs
    simp only [GeneratePassword, hs]
  obtain ⟨L, s', n', u', lo', c'⟩ := opt
  simp only at hU hL hN hS
  subst hU; subst hL; subst hN; subst hS
  have hv1 : L < 0 → validateOptions ⟨L, false, false, false, false, c'⟩ =
      some "length is too short for the selected character sets" := by
    intro hneg
    unfold validateOptions
    simp only [Bool.false_eq_true, if_false, Bool.not_false, Bool.and_self]
    rw [if_pos (by omega)]
  have hv2 : 0 ≤ L → c' < 1 → validateOptions ⟨L, false, false, false, false, c'⟩ =
      some "count must be greater than 0" := by
    intro h0 hc
    unfold validateOptions
    simp only [Bool.false_eq_true, if_false, Bool.not_false, Bool.and_self]
    rw [if_neg (by omega), if_pos (by omega)]
  have hv3 : 0 ≤ L → 1 ≤ c' → validateOptions ⟨L, false, false, false, false, c'⟩ =
      some "at least one character set must be selected" := by
    intro h0 hc
    unfold validateOptions
    simp only [Bool.false_eq_true, if_false, Bool.not_false, Bool.and_self]
    rw [if_neg (by omega), if_neg (by omega)]
    simp
  refine ⟨?_, ⟨?_, fun hx => hval _ (hv3 hx.1 hx.2)⟩,
    fun hneg => hval _ (hv1 hneg), fun h0 hc => hval _ (hv2 h0 hc)⟩
  · by_cases h0 : 0 ≤ L
    · by_cases hc : 1 ≤ c'
      · exact ⟨_, hval _ (hv3 h0 hc)⟩
      · exact ⟨_, hval _ (hv2 h0 (by omega))⟩
    · exact ⟨_, hval _ (hv1 (by omega))⟩
  · intro h
    by_cases h0 : 0 ≤ L
    · by_cases hc : 1 ≤ c'
      · exact ⟨h0, hc⟩
      · have h2 := hval _ (hv2 h0 (by omega))
        exact absurd (Except.error.inj (h2.symm.trans h)) (by decide)
    · have h2 := hval _ (hv1 (by omega))
      exact absurd (Except.error.inj (h2.symm.trans h)) (by decide)

/-- Witness for the amended C3 at a concrete request. -/
theorem noCharset_error_when_length_count_ok_example :
    GeneratePassword ⟨5, false, false, false, false, 2⟩ g0 =
      .error "at least one character set must be selected" :=
  (noCharset_error_when_length_count_ok ⟨5, false, false, false, false, 2⟩ g0
    rfl rfl rfl rfl).2.1.mpr ⟨by decide, by decide⟩

/-- C4 counterexample: the special alphabet has 27 symbols, not 28, and the
combined four-class alphabet has 89 characters, not 90. -/
theorem specialChars_not_28 :
    specialChars.length = 27 ∧ specialChars.length ≠ 28 ∧
      (buildCharset ⟨12, true, true, true, true, 1⟩).length = 89 := by decide

end PassGen

namespace PassGen

lemma digit_only_digit : ∀ c ∈ numbers,
    caseUpper c = false ∧ caseLower c = false ∧ caseSpecial c = false := by decide

/-- C4 amended: the special alphabet has exactly 27 symbols, the combined
four-class alphabet has 89 characters, and a 12-character password using all
four classes gets entropy `12 * log2 89` (between 77 and 78 bits, so about
77.71) and is classified "Strong". -/
theorem specialChars_27_entropy (pwd : List Char) (h12 : pwd.length = 12)
    (hU : ∃ c ∈ pwd, c ∈ uppercase) (hL : ∃ c ∈ pwd, c ∈ lowercase)
    (hN : ∃ c ∈ pwd, c ∈ numbers) (hS : ∃ c ∈ pwd, c ∈ specialChars) :
    PasswordEntropy pwd = .ok ((12 : ℝ) * Real.logb 2 89, "Strong") ∧
    77 < (12 : ℝ) * Real.logb 2 89 ∧ (12 : ℝ) * Real.logb 2 89 < 78 ∧
    specialChars.length = 27 ∧
    (buildCharset ⟨12, true, true, true, true, 1⟩).length = 89 := by
  obtain ⟨cu, hcu, hcuU⟩ := hU
  obtain ⟨cl, hcl, hclL⟩ := hL
  obtain ⟨cn, hcn, hcnN⟩ := hN
  obtain ⟨cs, hcs, hcsS⟩ := hS
  have h1 : hasUpperIn pwd = true :=
    List.any_eq_true.mpr ⟨cu, hcu, upper_case_true _ hcuU⟩
  have h2 : hasLowerIn pwd = true :=
    List.any_eq_true.mpr ⟨cl, hcl, lower_case_true _ hclL⟩
  have h3 : hasNumberIn pwd = true :=
    List.any_eq_true.mpr ⟨cn, hcn, digit_case_true _ hcnN⟩
  have h4 : hasSpecialIn pwd = true :=
    List.any_eq_true.mpr ⟨cs, hcs, special_case_true _ hcsS⟩
  have hobs : observedCharsetSize pwd = 89 := by
    simp [observedCharsetSize, h1, h2, h3, h4, uppercase_length, lowercase_length,
      numbers_length, specialChars_length]
  have hne : pwd ≠ [] := List.ne_nil_of_mem hcu
  have hpe := passwordEntropy_ok hne (by rw [hobs]; norm_num)
  rw [h12, hobs] at hpe
  have hcast : ((12 : ℕ) : ℝ) * Real.logb 2 ((89 : ℕ) : ℝ) =
      (12 : ℝ) * Real.logb 2 89 := by norm_num
  rw [hcast] at hpe
  have h60 : (60 : ℝ) ≤ 12 * Real.logb 2 89 := by
    have h := nat_le_mul_logb_of 89 12 60 (by norm_num) (by norm_num)
    push_cast at h
    linarith
  have h80 : (12 : ℝ) * Real.logb 2 89 < 80 := by
    have h := nat_mul_logb_lt_of 89 12 80 (by norm_num) (by norm_num)
    push_cast at h
    linarith
  have h77 : (77 : ℝ) < 12 * Real.logb 2 89 := by
    have h := nat_lt_mul_logb_of 89 12 77 (by norm_num) (by norm_num)
    push_cast at h
    linarith
  have h78 : (12 : ℝ) * Real.logb 2 89 < 78 := by
    have h := nat_mul_logb_lt_of 89 12 78 (by norm_num) (by norm_num)
    push_cast at h
    linarith
  refine ⟨?_, h77, h78, by decide, by decide⟩
  rw [hpe, strengthOf_strong h60 h80]

/-- Witness for the amended C4 at a concrete 12-character password. -/
theorem specialChars_27_entropy_example :
    PasswordEntropy ("Aa0!Aa0!Aa0!".toList) =
      .ok ((12 : ℝ) * Real.logb 2 89, "Strong") :=
  (specialChars_27_entropy ("Aa0!Aa0!Aa0!".toList) (by decide) (by decide)
    (by decide) (by decide) (by decide)).1

/-- C6: on every non-empty password with at least one recognized character,
the analyzer returns entropy `length * log2(observed charset size)`, the
charset size being determined by the classes actually present; an all-digit
password has observed size 10, and an 8-character all-digit password gets
about 26.58 bits (between 26 and 27) and the label "Weak". -/
theorem passwordEntropy_observed (pwd : List Char) (h1 : pwd ≠ [])
    (h2 : observedCharsetSize pwd ≠ 0) :
    (∃ s, PasswordEntropy pwd = .ok ((pwd.length : ℝ) *
      Real.logb 2 (observedCharsetSize pwd : ℝ), s)) ∧
    ((∀ c ∈ pwd, c ∈ numbers) → observedCharsetSize pwd = 10) ∧
    (pwd.length = 8 → (∀ c ∈ pwd, c ∈ numbers) →
      PasswordEntropy pwd = .ok ((8 : ℝ) * Real.logb 2 10, "Weak") ∧
      26 < (8 : ℝ) * Real.logb 2 10 ∧ (8 : ℝ) * Real.logb 2 10 < 27) := by
  have hdig10 : (∀ c ∈ pwd, c ∈ numbers) → observedCharsetSize pwd = 10 := by
    intro hdig
    obtain ⟨c0, hc0⟩ := List.exists_mem_of_ne_nil pwd h1
    have hnum : hasNumberIn pwd = true :=
      List.any_eq_true.mpr ⟨c0, hc0, digit_case_true _ (hdig c0 hc0)⟩
    have hup : hasUpperIn pwd = false :=
      List.any_eq_false.mpr fun c hc => by
        simp [(digit_only_digit c (hdig c hc)).1]
    have hlo : hasLowerIn pwd = false :=
      List.any_eq_false.mpr fun c hc => by
        simp [(digit_only_digit c (hdig c hc)).2.1]
    have hsp : hasSpecialIn pwd = false :=
      List.any_eq_false.mpr fun c hc => by
        simp [(digit_only_digit c (hdig c hc)).2.2]
    simp [observedCharsetSize, hnum, hup, hlo, hsp, numbers_length]
  refine ⟨⟨_, passwordEntropy_ok h1 h2⟩, hdig10, ?_⟩
  intro h8 hdig
  have hobs := hdig10 hdig
  have hpe := passwordEntropy_ok h1 h2
  rw [h8, hobs] at hpe
  have hcast : ((8 : ℕ) : ℝ) * Real.logb 2 ((10 : ℕ) : ℝ) =
      (8 : ℝ) * Real.logb 2 10 := by norm_num
  rw [hcast] at hpe
  have h26 : (26 : ℝ) < 8 * Real.logb 2 10 := by
    have h := nat_lt_mul_logb_of 10 8 26 (by norm_num) (by norm_num)
    push_cast at h
    linarith
  have h27 : (8 : ℝ) * Real.logb 2 10 < 27 := by
    have h := nat_mul_logb_lt_of 10 8 27 (by norm_num) (by norm_num)
    push_cast at h
    linarith
  refine ⟨?_, h26, h27⟩
  rw [hpe, strengthOf_weak (by linarith)]

/-- Witness for C6 at a concrete 8-digit password. -/
theorem passwordEntropy_observed_example :
    PasswordEntropy ("01234567".toList) = .ok ((8 : ℝ) * Real.logb 2 10, "Weak") :=
  ((passwordEntropy_observed ("01234567".toList) (by decide) (by decide)).2.2
    (by decide) (by decide)).1

end PassGen

namespace PassGen

/-- C1: whatever values the sampler oracle supplies, every password in a
successful `GeneratePassword` batch contains at least one character of every
class whose flag is enabled in the request. -/
theorem generatePassword_class_coverage (opt : PasswordOptions) (g : Sampler)
    (pws : List GeneratedPassword) (hok : GeneratePassword opt g = .ok pws) :
    ∀ p ∈ pws,
      (opt.UseUpper = true → ∃ c ∈ p.Value, c ∈ uppercase) ∧
      (opt.UseLower = true → ∃ c ∈ p.Value, c ∈ lowercase) ∧
      (opt.UseNumbers = true → ∃ c ∈ p.Value, c ∈ numbers) ∧
      (opt.UseSpecialChars = true → ∃ c ∈ p.Value, c ∈ specialChars) := by
  obtain ⟨hv, k2, hloop⟩ := generatePassword_ok_inv hok
  obtain ⟨_, hmem⟩ := genLoop_ok_inv hloop
  intro p hp
  obtain ⟨ka, kb, hco, _⟩ := hmem p hp
  obtain ⟨_, _, pU, pL, pN, pS, _⟩ := composeOne_ok_spec hv hco
  exact ⟨pU, pL, pN, pS⟩

/-- Witness for C1: the digit-only request yields a password containing a
digit. -/
theorem generatePassword_class_coverage_example :
    ∃ c ∈ (['0'] : List Char), c ∈ numbers := by
  have h := generatePassword_class_coverage opt0 g0
    [⟨['0'], "Weak", Real.logb 2 10⟩] gen0
  exact (h _ (List.mem_singleton_self _)).2.2.1 rfl

/-- C2: a successful `GeneratePassword` returns exactly `Count` records, and
every `Value` has exactly `Length` characters. -/
theorem generatePassword_count_and_length (opt : PasswordOptions) (g : Sampler)
    (pws : List GeneratedPassword) (hok : GeneratePassword opt g = .ok pws) :
    (pws.length : Int) = opt.Count ∧
    ∀ p ∈ pws, (p.Value.length : Int) = opt.Length := by
  obtain ⟨hv, k2, hloop⟩ := generatePassword_ok_inv hok
  obtain ⟨hlen, hmem⟩ := genLoop_ok_inv hloop
  obtain ⟨hvl, hvc, _⟩ := (validateOptions_eq_none_iff opt).mp hv
  constructor
  · rw [hlen]
    exact Int.toNat_of_nonneg (by omega)
  · intro p hp
    obtain ⟨ka, kb, hco, _⟩ := hmem p hp
    obtain ⟨hpl, _⟩ := composeOne_ok_spec hv hco
    rw [hpl]
    simp only [passLen, fillCount]
    omega

/-- Witness for C2 at the concrete digit-only request. -/
theorem generatePassword_count_and_length_example :
    (([(⟨['0'], "Weak", Real.logb 2 10⟩ : GeneratedPassword)].length : Int) =
      opt0.Count) ∧
    ∀ p ∈ [(⟨['0'], "Weak", Real.logb 2 10⟩ : GeneratedPassword)],
      (p.Value.length : Int) = opt0.Length :=
  generatePassword_count_and_length opt0 g0 _ gen0

/-- C9: under valid options, every composed password is non-empty and has a
non-zero observed charset, so the analyzer call in the generation path can
never take its empty-password or no-recognized-characters error branch. -/
theorem composed_password_analyzable (opt : PasswordOptions) (g : Sampler)
    (k k1 : Nat) (pwd : List Char) (hv : validateOptions opt = none)
    (h : composeOne opt g k = .ok (pwd, k1)) :
    pwd ≠ [] ∧ observedCharsetSize pwd ≠ 0 ∧ ∃ r, PasswordEntropy pwd = .ok r := by
  obtain ⟨h1, h2⟩ := composed_analyzable hv h
  exact ⟨h1, h2, _, passwordEntropy_ok h1 h2⟩

/-- Witness for C9 at the concrete digit-only composition. -/
theorem composed_password_analyzable_example :
    (['0'] : List Char) ≠ [] ∧ observedCharsetSize ['0'] ≠ 0 ∧
      ∃ r, PasswordEntropy ['0'] = .ok r :=
  composed_password_analyzable opt0 g0 0 1 ['0'] (by decide) compose0

/-- C10: every character of every password in a successful batch belongs to
the alphabet of some enabled class (so never to a disabled-only class, and
never outside the four fixed alphabets). -/
theorem generatePassword_chars_subset_enabled (opt : PasswordOptions)
    (g : Sampler) (pws : List GeneratedPassword)
    (hok : GeneratePassword opt g = .ok pws) :
    ∀ p ∈ pws, ∀ c ∈ p.Value,
      (opt.UseUpper = true ∧ c ∈ uppercase) ∨
      (opt.UseLower = true ∧ c ∈ lowercase) ∨
      (opt.UseNumbers = true ∧ c ∈ numbers) ∨
      (opt.UseSpecialChars = true ∧ c ∈ specialChars) := by
  obtain ⟨hv, k2, hloop⟩ := generatePassword_ok_inv hok
  obtain ⟨_, hmem⟩ := genLoop_ok_inv hloop
  intro p hp c hc
  obtain ⟨ka, kb, hco, _⟩ := hmem p hp
  obtain ⟨_, _, _, _, _, _, hsub⟩ := composeOne_ok_spec hv hco
  exact (mem_buildCharset_iff opt c).mp (hsub c hc)

/-- Witness for C10: the digit `'0'` of the concrete batch comes from the
enabled digit class. -/
theorem generatePassword_chars_subset_enabled_example :
    (opt0.UseUpper = true ∧ '0' ∈ uppercase) ∨
    (opt0.UseLower = true ∧ '0' ∈ lowercase) ∨
    (opt0.UseNumbers = true ∧ '0' ∈ numbers) ∨
    (opt0.UseSpecialChars = true ∧ '0' ∈ specialChars) :=
  generatePassword_chars_subset_enabled opt0 g0
    [⟨['0'], "Weak", Real.logb 2 10⟩] gen0 _ (List.mem_singleton_self _) '0'
    (List.mem_singleton_self _)

/-- C8: if the oracle's first failure occurs at any call index inside the
batch's sampling window, `GeneratePassword` surfaces exactly that wrapped
sampler error (and hence returns no password list). -/
theorem generatePassword_sampler_failure (opt : PasswordOptions) (g : Sampler)
    (j : Nat) (e : String) (hv : validateOptions opt = none)
    (hj : j < opt.Count.toNat * composeCost opt)
    (hok : okUpTo g 0 j) (hge : g j = .error e) :
    GeneratePassword opt g = .error ("failed to generate random number: " ++ e) := by
  have hloop := genLoop_err hv (n := opt.Count.toNat) (k := 0) (j := j)
    (by omega) (by omega) hok hge
  simp only [GeneratePassword, hv, hloop]

/-- Witness for C8: an oracle failing on its very first call. -/
theorem generatePassword_sampler_failure_example :
    GeneratePassword opt0 gErr =
      .error ("failed to generate random number: " ++ "entropy source unavailable") :=
  generatePassword_sampler_failure opt0 gErr 0 "entropy source unavailable"
    (by decide) (by decide) (fun j h1 h2 => absurd h2 (Nat.not_lt_zero j)) rfl

end PassGen
